import Mathlib

/-!
Verification of the flagx command-line library (argument tokenizer,
typed value adapters, FlagSet parsing with tolerant mode and positional
slots, and the command/subcommand dispatch tree).

The definitions below are a shallow embedding of the Go source:

* tokenizer: flag.go, tidyOneArg / filterArgs / tidyArgs;
* value adapters: value.go, stringValue / boolValue / intValue /
  uintValue / float64Value / durationValue;
* FlagSet: flag.go, FlagSet.Parse / parseOneNonFlag / NextArgs /
  NFormalNonFlag / NonVar;
* dispatch: app.go, Command.Exec / route / findFiltersAndAction /
  newFilters / newAction / SetAction / AddSubcommand, and Context
  accessors.

Go strings are embedded as Lean String (byte indexing in the source only
ever inspects ASCII bytes, so the Char-level view agrees), Go slices as
List, Go maps as association lists, and error returns as Option String
or Except.  Go multi-value returns become structures or tuples.
-/

namespace Flagx

/-! ## Tokenizer (flag.go: tidyOneArg, filterArgs, tidyArgs) -/

/-- Result record of one tokenization step; mirrors the named return
values of tidyOneArg in flag.go (lastArgs, terminated, name, valuePtr,
seen, err). -/
structure TidyOne where
  lastArgs : List String
  terminated : Bool
  name : String
  valuePtr : Option String
  seen : Bool
  err : Option String
  deriving Repr, DecidableEq

/-- The loop "for i := 1; i < len(name); i++" of tidyOneArg that looks
for the first '=' sign strictly after position 0; here cs is the name
without its first character.  Returns the pieces before and after the
first '='. -/
def splitAtFirstEq : List Char → Option (List Char × List Char)
  | [] => none
  | '=' :: rest => some ([], rest)
  | c :: rest => (splitAtFirstEq rest).map (fun p => (c :: p.1, p.2))

/-- Continuation of tidyOneArg after the leading minuses of the token s
have been stripped to the list name: syntax check, "=value" splitting,
and value-from-next-argument consumption (flag.go lines 568-605). -/
def tidyOneName (s : String) (restArgs : List String) (name : List Char) : TidyOne :=
  match name with
  | [] =>
    { lastArgs := s :: restArgs, terminated := false, name := "", valuePtr := none,
      seen := false, err := some ("bad flag syntax: " ++ s) }
  | c :: cs =>
    if c = '-' ∨ c = '=' then
      { lastArgs := s :: restArgs, terminated := false, name := "", valuePtr := none,
        seen := false, err := some ("bad flag syntax: " ++ s) }
    else
      match splitAtFirstEq cs with
      | some (l, r) =>
        { lastArgs := restArgs, terminated := false, name := String.mk (c :: l),
          valuePtr := some (String.mk r), seen := true, err := none }
      | none =>
        match restArgs with
        | [] =>
          { lastArgs := [], terminated := false, name := String.mk (c :: cs),
            valuePtr := none, seen := true, err := none }
        | maybeValue :: rest2 =>
          match maybeValue.data with
          | [] =>
            { lastArgs := rest2, terminated := false, name := String.mk (c :: cs),
              valuePtr := some maybeValue, seen := true, err := none }
          | c0 :: _ =>
            if c0 = '-' then
              { lastArgs := maybeValue :: rest2, terminated := false,
                name := String.mk (c :: cs), valuePtr := none, seen := true, err := none }
            else
              { lastArgs := rest2, terminated := false, name := String.mk (c :: cs),
                valuePtr := some maybeValue, seen := true, err := none }

/-- Dispatch of tidyOneArg on the characters of the head token s (the
byte tests len(s) < 2, s[0] != '-', s[1] == '-', len(s) == 2 of flag.go
lines 554-567 become the list patterns below).  A token of fewer than
two characters or one not starting with '-' is not a flag; the exact
token "--" terminates flag scanning; one or two leading minuses are
stripped before the name is examined. -/
def tidyOneCore (s : String) (rest : List String) : List Char → TidyOne
  | '-' :: '-' :: [] =>
    { lastArgs := rest, terminated := true, name := "", valuePtr := none,
      seen := false, err := none }
  | '-' :: '-' :: c0 :: nm => tidyOneName s rest (c0 :: nm)
  | '-' :: c1 :: nm =>
    if c1 = '-' then
      -- unreachable: covered by the two branches above
      { lastArgs := s :: rest, terminated := false, name := "", valuePtr := none,
        seen := false, err := none }
    else tidyOneName s rest (c1 :: nm)
  | _ =>
    { lastArgs := s :: rest, terminated := false, name := "", valuePtr := none,
      seen := false, err := none }

/-- tidyOneArg (flag.go lines 549-606): tidies one flag token. -/
def tidyOneArg (args : List String) : TidyOne :=
  match args with
  | [] =>
    { lastArgs := [], terminated := false, name := "", valuePtr := none,
      seen := false, err := none }
  | s :: rest => tidyOneCore s rest s.data

theorem tidyOneName_seen_length (s : String) (restArgs : List String) (name : List Char)
    (h : (tidyOneName s restArgs name).seen = true) :
    (tidyOneName s restArgs name).lastArgs.length ≤ restArgs.length := by
  unfold tidyOneName at *
  cases name with
  | nil => simp at h
  | cons c cs =>
    by_cases hc : c = '-' ∨ c = '='
    · simp [hc] at h
    · simp only [hc, if_false] at *
      cases hsp : splitAtFirstEq cs with
      | some p => simp [hsp]
      | none =>
        simp only [hsp] at *
        cases restArgs with
        | nil => simp
        | cons mv rest2 =>
          cases hmv : mv.data with
          | nil => simp [hmv]
          | cons c0 tl =>
            by_cases hc0 : c0 = '-' <;> simp [hmv, hc0]

theorem tidyOneCore_seen_length (s : String) (rest : List String) (cs : List Char)
    (h : (tidyOneCore s rest cs).seen = true) :
    (tidyOneCore s rest cs).lastArgs.length ≤ rest.length := by
  unfold tidyOneCore at *
  split at h
  · simp at h
  · exact tidyOneName_seen_length _ _ _ h
  · split at h
    · simp at h
    · split
      · simp_all
      · exact tidyOneName_seen_length _ _ _ h
  · simp at h

theorem tidyOneArg_seen_length (args : List String)
    (h : (tidyOneArg args).seen = true) :
    (tidyOneArg args).lastArgs.length < args.length := by
  cases args with
  | nil => simp [tidyOneArg] at h
  | cons s rest =>
    have := tidyOneCore_seen_length s rest s.data (by simpa [tidyOneArg] using h)
    simpa [tidyOneArg] using Nat.lt_succ_of_le this

/-- The loop of filterArgs (flag.go lines 531-546) fused with the
closure that tidyArgs (lines 513-529) passes to it: the closure keeps,
for every seen token whose name the filter wants, the re-synthesized
pair "-name" / "-name value"; that accumulation is threaded here as the
acc parameter.  The Go filter returns (want, next); for every caller in
the source next is constant true per name, so the filter is embedded as
a function to (want, next). -/
def tidyArgsLoop (filter : String → Bool × Bool) (args acc : List String) :
    List String × List String × Bool × Option String :=
  let r := tidyOneArg args
  if hseen : r.seen then
    let kv : List String :=
      match r.valuePtr with
      | none => ["-" ++ r.name]
      | some v => ["-" ++ r.name, v]
    let acc' := if (filter r.name).1 then acc ++ kv else acc
    if (filter r.name).2 then tidyArgsLoop filter r.lastArgs acc'
    else (acc', r.lastArgs, r.terminated, r.err)
  else (acc, r.lastArgs, r.terminated, r.err)
termination_by args.length
decreasing_by exact tidyOneArg_seen_length args hseen

/-- tidyArgs (flag.go lines 513-529): returns (tidiedArgs, lastArgs,
terminated, err). -/
def tidyArgs (args : List String) (filter : String → Bool × Bool) :
    List String × List String × Bool × Option String :=
  tidyArgsLoop filter args []

/-! ## Typed value adapters (value.go)

Each adapter is embedded as a pair of functions: Set becomes a function
from the incoming text to Except (the error string) of the newly stored
value (the Go receiver is mutated; here the new value is returned), and
String becomes a function from the stored value to text.  The
elem.IsValid() == false branches of the String methods serve nil
receivers during usage printing and are not part of the value model.
The numeric parsers of the standard strconv package and the duration
parser of the time package are external collaborators of value.go;
their embeddings below follow their documented grammars. -/

/-- Rendering of the %q verb used by the flagx error messages; escape
sequences of unprintable characters are not modelled (no theorem
depends on them). -/
def goQuote (s : String) : String := "\"" ++ s ++ "\""

/-- strconv.ParseBool: the exact thirteen accepted spellings. -/
def parseBool (s : String) : Option Bool :=
  if s = "1" ∨ s = "t" ∨ s = "T" ∨ s = "TRUE" ∨ s = "true" ∨ s = "True" then some true
  else if s = "0" ∨ s = "f" ∨ s = "F" ∨ s = "FALSE" ∨ s = "false" ∨ s = "False" then some false
  else none

/-- Value of a nonempty list of base-10 digit characters; none when the
list is empty or contains a non-digit. -/
def digitsToNat? (cs : List Char) : Option Nat :=
  match cs with
  | [] => none
  | _ =>
    cs.foldl
      (fun acc c =>
        match acc with
        | none => none
        | some n => if '0' ≤ c ∧ c ≤ '9' then some (n * 10 + (c.toNat - '0'.toNat)) else none)
      (some 0)

/-- strconv.ParseUint with base 10 and bitSize 64: digits only (no
sign), value below 2^64. -/
def parseUint64 (s : String) : Option Nat :=
  match digitsToNat? s.data with
  | none => none
  | some n => if n < 2 ^ 64 then some n else none

/-- strconv.ParseInt with base 10 and bitSize 64: optional sign, then
digits, signed value within the int64 range. -/
def parseInt64 (s : String) : Option Int :=
  match s.data with
  | [] => none
  | c :: rest =>
    let p : Bool × List Char :=
      if c = '+' then (false, rest) else if c = '-' then (true, rest) else (false, c :: rest)
    match digitsToNat? p.2 with
    | none => none
    | some n =>
      let v : Int := if p.1 then -(n : Int) else (n : Int)
      if -(2 ^ 63) ≤ v ∧ v < 2 ^ 63 then some v else none

/-- Unit suffixes accepted by time.ParseDuration, in nanoseconds. -/
def durationUnit : List Char → Option (Nat × List Char)
  | 'n' :: 's' :: rest => some (1, rest)
  | 'u' :: 's' :: rest => some (1000, rest)
  | 'µ' :: 's' :: rest => some (1000, rest)
  | 'μ' :: 's' :: rest => some (1000, rest)
  | 'm' :: 's' :: rest => some (1000000, rest)
  | 's' :: rest => some (1000000000, rest)
  | 'm' :: rest => some (60000000000, rest)
  | 'h' :: rest => some (3600000000000, rest)
  | _ => none

/-- Longest leading run of base-10 digits. -/
def takeDigits (cs : List Char) : List Char × List Char :=
  match cs with
  | [] => ([], [])
  | c :: rest =>
    if '0' ≤ c ∧ c ≤ '9' then
      let p := takeDigits rest
      (c :: p.1, p.2)
    else ([], cs)

/-- A number group digits[.digits] at the head of the input: returns
the integer digits, the fraction digits and the remaining characters. -/
def takeNumber (cs : List Char) : List Char × List Char × List Char :=
  match takeDigits cs with
  | (ints, '.' :: rest) =>
    let pFrac := takeDigits rest
    (ints, pFrac.1, pFrac.2)
  | (ints, rest) => (ints, [], rest)

theorem takeDigits_length (cs : List Char) : (takeDigits cs).2.length ≤ cs.length := by
  induction cs with
  | nil => simp [takeDigits]
  | cons c rest ih =>
    by_cases hc : '0' ≤ c ∧ c ≤ '9' <;> simp [takeDigits, hc] <;> omega

theorem takeNumber_length (cs : List Char) : (takeNumber cs).2.2.length ≤ cs.length := by
  unfold takeNumber
  have h1 := takeDigits_length cs
  split
  · rename_i ints rest heq
    have h2 := takeDigits_length rest
    have h3 : rest.length < cs.length := by
      rw [heq] at h1
      simp at h1
      omega
    simp
    omega
  · rename_i ints rest heq
    rw [heq] at h1
    simpa using h1

theorem durationUnit_length (ds : List Char) (u : Nat) (r : List Char)
    (h : durationUnit ds = some (u, r)) : r.length < ds.length := by
  unfold durationUnit at h
  split at h <;> simp_all <;> omega

/-- Value in nanoseconds of one digit group int.frac scaled by a unit,
as an exact rational (the time package computes this with int64 and
float64 arithmetic; overflow and rounding of that computation are not
modelled, no theorem evaluates this function). -/
def durationGroupValue (intPart fracPart : List Char) (unitNanos : Nat) : ℚ :=
  let iv : ℚ := ((digitsToNat? intPart).getD 0 : Nat)
  let fv : ℚ := ((digitsToNat? fracPart).getD 0 : Nat)
  (iv + fv / ((10 : ℚ) ^ fracPart.length)) * (unitNanos : Nat)

/-- One or more number[.fraction]unit groups of time.ParseDuration. -/
def parseDurationGroups (cs : List Char) (acc : ℚ) : Option ℚ :=
  if cs = [] then some acc
  else if (takeNumber cs).1 = [] ∧ (takeNumber cs).2.1 = [] then none
  else
    match hu : durationUnit (takeNumber cs).2.2 with
    | none => none
    | some (u, rest) =>
      parseDurationGroups rest
        (acc + durationGroupValue (takeNumber cs).1 (takeNumber cs).2.1 u)
termination_by cs.length
decreasing_by
  have h1 := takeNumber_length cs
  have h2 := durationUnit_length _ _ _ hu
  omega

/-- time.ParseDuration (external collaborator of durationValue.Set):
optional sign, the special spelling 0, or one or more
number[.fraction]unit groups; result in integer nanoseconds (rational
value truncated toward zero). -/
def parseDuration (s : String) : Option Int :=
  match s.data with
  | [] => none
  | cs =>
    let p : Bool × List Char :=
      match cs with
      | '-' :: rest => (true, rest)
      | '+' :: rest => (false, rest)
      | _ => (false, cs)
    if p.2 = ['0'] then some 0
    else if p.2 = [] then none
    else
      match parseDurationGroups p.2 0 with
      | none => none
      | some q =>
        let n : Int := q.floor
        some (if p.1 then -n else n)

/-- stringValue.Set (value.go lines 60-63): never fails, stores the
text verbatim. -/
def stringValueSet (val : String) : Except String String := .ok val

/-- stringValue.String (value.go lines 53-58). -/
def stringValueString (v : String) : String := v

/-- boolValue.Set (value.go lines 76-87): empty text means true. -/
def boolValueSet (val : String) : Except String Bool :=
  if val = "" then .ok true
  else
    match parseBool val with
    | some b => .ok b
    | none => .error ("flagx: " ++ goQuote val ++ " cannot be converted to bool")

/-- boolValue.String (value.go lines 69-74), via strconv.FormatBool. -/
def boolValueString (b : Bool) : String := if b then "true" else "false"

/-- intValue.Set (value.go lines 125-136), shared by the int and int64
kinds (typeStr names the kind in the error message): empty text stores
zero. -/
def intValueSet (typeStr : String) (val : String) : Except String Int :=
  if val = "" then .ok 0
  else
    match parseInt64 val with
    | some b => .ok b
    | none => .error ("flagx: " ++ goQuote val ++ " cannot be converted to " ++ typeStr)

/-- intValue.String (value.go lines 118-123), via strconv.FormatInt
base 10. -/
def intValueString (n : Int) : String := toString n

/-- uintValue.Set (value.go lines 174-185), shared by the uint and
uint64 kinds: empty text stores zero. -/
def uintValueSet (typeStr : String) (val : String) : Except String Nat :=
  if val = "" then .ok 0
  else
    match parseUint64 val with
    | some b => .ok b
    | none => .error ("flagx: " ++ goQuote val ++ " cannot be converted to " ++ typeStr)

/-- uintValue.String (value.go lines 167-172), via strconv.FormatUint
base 10. -/
def uintValueString (n : Nat) : String := toString n

/-- Rational model of strconv.ParseFloat (external collaborator of
float64Value.Set): decimal significand with optional sign, fraction and
exponent.  IEEE-754 rounding, hexadecimal floats and the Inf/NaN
spellings are not modelled; no theorem evaluates this function on
nonempty input. -/
def parseFloatQ (s : String) : Option ℚ :=
  match s.data with
  | [] => none
  | cs =>
    let p : Bool × List Char :=
      match cs with
      | '-' :: rest => (true, rest)
      | '+' :: rest => (false, rest)
      | _ => (false, cs)
    let t := takeNumber p.2
    if t.1 = [] ∧ t.2.1 = [] then none
    else
      let mant : ℚ := ((digitsToNat? t.1).getD 0 : Nat) +
        ((digitsToNat? t.2.1).getD 0 : Nat) / ((10 : ℚ) ^ t.2.1.length)
      let signed : ℚ := if p.1 then -mant else mant
      match t.2.2 with
      | [] => some signed
      | e :: rest =>
        if e = 'e' ∨ e = 'E' then
          match parseInt64 (String.mk rest) with
          | some ex => some (signed * (10 : ℚ) ^ ex)
          | none => none
        else none

/-- float64Value.Set (value.go lines 100-111): empty text stores zero;
the stored value is modelled as an exact rational. -/
def float64ValueSet (val : String) : Except String ℚ :=
  if val = "" then .ok 0
  else
    match parseFloatQ val with
    | some b => .ok b
    | none => .error ("flagx: " ++ goQuote val ++ " cannot be converted to float64")

/-- durationValue.Set (value.go lines 149-160): empty text stores the
zero duration; the stored value is int64 nanoseconds. -/
def durationValueSet (val : String) : Except String Int :=
  if val = "" then .ok 0
  else
    match parseDuration val with
    | some b => .ok b
    | none => .error ("flagx: " ++ goQuote val ++ " cannot be converted to time.Duration")

/-! ## Association-list stores for flag and non-flag registries -/

/-- Current value of the named flag (Go: the Value inside the actual or
formal map entry). -/
def lookupStore : List (String × String) → String → Option String
  | [], _ => none
  | (n, v) :: rest, name => if n = name then some v else lookupStore rest name

/-- Update of the named flag value in place (Go: Value.Set mutates the
flag registered in the formal map). -/
def setStore : List (String × String) → String → String → List (String × String)
  | [], name, v => [(name, v)]
  | (n, old) :: rest, name, v =>
    if n = name then (n, v) :: rest else (n, old) :: setStore rest name v

/-- Stored value of an indexed non-flag slot.  The source registers
slots through FlagSet.NonVar with any of the typed value adapters; the
two constructors here carry the adapter kinds the theorems instantiate
(stringValue and intValue). -/
inductive SlotVal where
  | str (s : String)
  | int (n : Int)
  deriving Repr, DecidableEq

/-- Value.Set dispatched on the slot adapter kind (value.go). -/
def slotSet : SlotVal → String → Except String SlotVal
  | .str _, val => (stringValueSet val).map .str
  | .int _, val => (intValueSet "int" val).map .int

/-- Non-flag registry lookup (Go: f.nonFormal[index]). -/
def lookupSlot : List (Nat × SlotVal) → Nat → Option SlotVal
  | [], _ => none
  | (i, v) :: rest, index => if i = index then some v else lookupSlot rest index

/-- Non-flag registry update in place. -/
def setSlot : List (Nat × SlotVal) → Nat → SlotVal → List (Nat × SlotVal)
  | [], index, v => [(index, v)]
  | (i, old) :: rest, index, v =>
    if i = index then (i, v) :: rest else (i, old) :: setSlot rest index v

/-! ## The strict parser of the embedded standard flag.FlagSet

Modelled from the spec: FlagSet embeds a *flag.FlagSet of the Go
standard library (not part of this repository) and step 2 of Parse runs
strict parsing over the cleaned list against the registered named
flags, where the first unrecognized flag is a hard parse error naming
the flag.  The model below follows the parseOne loop of the standard
flag package, restricted to string-valued flags (the only kind the
theorems register): no flag reports IsBoolFlag, and Value.Set never
fails, so the boolean special case and the set-failure error are
omitted.  Error handling is ContinueOnError (errors are returned), the
mode every theorem uses. -/

/-- State of the embedded standard FlagSet: registered flag names,
their current values, and the argument cursor (f.args, whose remainder
is Args()). -/
structure StrictState where
  formal : List String
  store : List (String × String)
  args : List String
  deriving Repr, DecidableEq

/-- Lookup, help special case, and value binding of the standard
parseOne once the name and an optional =value have been extracted; on a
valueless token the next argument is consumed unconditionally as the
value of a defined string flag. -/
def goParseApply (st : StrictState) (name : String) (value : Option String)
    (rest : List String) : Bool × Option String × StrictState :=
  if name ∈ st.formal then
    match value with
    | some v => (true, none, { st with store := setStore st.store name v, args := rest })
    | none =>
      match rest with
      | v :: rest2 =>
        (true, none, { st with store := setStore st.store name v, args := rest2 })
      | [] => (false, some ("flag needs an argument: -" ++ name), { st with args := rest })
  else if name = "help" ∨ name = "h" then
    (false, some "flag: help requested", { st with args := rest })
  else
    (false, some ("flag provided but not defined: -" ++ name), { st with args := rest })

/-- Name validation and =value splitting of the standard parseOne
(where s is the raw token and the leading minuses are already
stripped). -/
def goParseName (st : StrictState) (s : String) (rest : List String)
    (name : List Char) : Bool × Option String × StrictState :=
  match name with
  | [] => (false, some ("bad flag syntax: " ++ s), st)
  | c :: cs =>
    if c = '-' ∨ c = '=' then (false, some ("bad flag syntax: " ++ s), st)
    else
      match splitAtFirstEq cs with
      | some (l, r) => goParseApply st (String.mk (c :: l)) (some (String.mk r)) rest
      | none => goParseApply st (String.mk (c :: cs)) none rest

/-- Token dispatch of the standard parseOne on the characters of the
head token (same byte tests as tidyOneArg; "--" is consumed and stops
parsing with no error). -/
def goParseOneCore (st : StrictState) (s : String) (rest : List String) :
    List Char → Bool × Option String × StrictState
  | '-' :: '-' :: [] => (false, none, { st with args := rest })
  | '-' :: '-' :: c0 :: nm => goParseName st s rest (c0 :: nm)
  | '-' :: c1 :: nm =>
    if c1 = '-' then
      -- unreachable: covered by the two branches above
      (false, none, st)
    else goParseName st s rest (c1 :: nm)
  | _ => (false, none, st)

/-- One step of the strict parsing loop of the standard flag package. -/
def goParseOne (st : StrictState) : Bool × Option String × StrictState :=
  match st.args with
  | [] => (false, none, st)
  | s :: rest => goParseOneCore st s rest s.data

theorem goParseApply_seen_length (st : StrictState) (name : String) (value : Option String)
    (rest : List String) (h : (goParseApply st name value rest).1 = true) :
    (goParseApply st name value rest).2.2.args.length ≤ rest.length := by
  unfold goParseApply at *
  by_cases hf : name ∈ st.formal
  · simp only [hf, if_true] at h ⊢
    cases value with
    | some v => simp
    | none =>
      cases rest with
      | nil => simp at h
      | cons v rest2 => simp
  · simp only [hf, if_false] at h
    split at h <;> simp at h

theorem goParseName_seen_length (st : StrictState) (s : String) (rest : List String)
    (name : List Char) (h : (goParseName st s rest name).1 = true) :
    (goParseName st s rest name).2.2.args.length ≤ rest.length := by
  unfold goParseName at *
  cases name with
  | nil => simp at h
  | cons c cs =>
    by_cases hc : c = '-' ∨ c = '='
    · simp [hc] at h
    · simp only [hc, if_false] at h ⊢
      cases hsp : splitAtFirstEq cs with
      | some p =>
        simp only [hsp] at h ⊢
        exact goParseApply_seen_length _ _ _ _ h
      | none =>
        simp only [hsp] at h ⊢
        exact goParseApply_seen_length _ _ _ _ h

theorem goParseOne_seen_length (st : StrictState)
    (h : (goParseOne st).1 = true) :
    (goParseOne st).2.2.args.length < st.args.length := by
  unfold goParseOne at *
  cases hargs : st.args with
  | nil => rw [hargs] at h; simp at h
  | cons s rest =>
    have hcore : ∀ cs, (goParseOneCore st s rest cs).1 = true →
        (goParseOneCore st s rest cs).2.2.args.length ≤ rest.length := by
      intro cs hcs
      unfold goParseOneCore at *
      split at hcs
      · simp at hcs
      · exact goParseName_seen_length _ _ _ _ hcs
      · split at hcs
        · simp at hcs
        · split
          · simp_all
          · exact goParseName_seen_length _ _ _ _ hcs
      · simp at hcs
    have h2 : (goParseOneCore st s rest s.data).1 = true := by
      rw [hargs] at h
      simpa using h
    have := hcore s.data h2
    simpa using Nat.lt_succ_of_le this

/-- The parsing loop of the standard FlagSet.Parse with ContinueOnError
handling: repeat parseOne while a flag is seen; stop silently at the
first non-flag token, or return the error. -/
def goParse (st : StrictState) : Option String × StrictState :=
  let r := goParseOne st
  if hseen : r.1 then goParse r.2.2
  else (r.2.1, r.2.2)
termination_by st.args.length
decreasing_by exact goParseOne_seen_length st hseen

/-! ## The flagx FlagSet (flag.go) -/

/-- FlagSet (flag.go lines 22-29): the embedded standard FlagSet plus
the ContinueOnUndefined tolerance bit, the terminator marker and the
non-flag registries.  errorHandling is ContinueOnError throughout the
model (the only handling the theorems use; the ContinueOnUndefined bit
is carried by isContinueOnUndefined, as after Init's cleanBit). -/
structure FlagSet where
  isContinueOnUndefined : Bool
  terminated : Bool
  strict : StrictState
  nonFormal : List (Nat × SlotVal)
  nonActual : List Nat
  deriving Repr, DecidableEq

/-- Whether the embedded standard FlagSet defines the named flag
(f.FlagSet.Lookup(name) != nil on flag.go line 272). -/
def FlagSet.hasFormal (f : FlagSet) (name : String) : Bool :=
  name ∈ f.strict.formal

/-- parseOneNonFlag (flag.go lines 329-347): binds one positional
argument; reports whether a non-flag was seen.  Returns (seen, err, new
state). -/
def FlagSet.parseOneNonFlag (f : FlagSet) (index : Nat) (value : String) :
    Bool × Option String × FlagSet :=
  if value = "--" then
    (false, some ("non-flag defined but not provided: " ++ toString index), f)
  else
    match lookupSlot f.nonFormal index with
    | none => (false, none, f)
    | some slot =>
      match slotSet slot value with
      | .error e =>
        (false,
          some ("invalid value " ++ goQuote value ++ " for non-flag " ++ toString index
            ++ ": " ++ e), f)
      | .ok slot' =>
        (true, none,
          { f with nonFormal := setSlot f.nonFormal index slot',
                   nonActual := f.nonActual ++ [index] })

/-- The positional loop of Parse (flag.go lines 308-324, with
ContinueOnError handling): walk the remaining arguments in index order;
continue past a bound slot, break silently at the first index that sees
no non-flag without error, return the error otherwise. -/
def FlagSet.parseNonFlagLoop (f : FlagSet) (args : List String) (k : Nat) :
    Option String × FlagSet :=
  match args with
  | [] => (none, f)
  | v :: rest =>
    let r := f.parseOneNonFlag k v
    if r.1 then r.2.2.parseNonFlagLoop rest (k + 1)
    else
      match r.2.1 with
      | none => (none, r.2.2)
      | some e => (some e, r.2.2)

/-- Parse (flag.go lines 269-326): tolerant pre-filtering through
tidyArgs, strict parsing of the (possibly re-synthesized) list, the
strict-mode terminator detection, and the positional loop.  Returns the
error and the final state. -/
def FlagSet.Parse (f : FlagSet) (arguments : List String) : Option String × FlagSet :=
  let pre : Except String (List String × FlagSet) :=
    if f.isContinueOnUndefined then
      let t := tidyArgs arguments (fun name => (f.hasFormal name, true))
      match t.2.2.2 with
      | some e => .error e
      | none =>
        .ok (t.1 ++ (if t.2.2.1 then ["--"] else []) ++ t.2.1,
             { f with terminated := t.2.2.1 })
    else .ok (arguments, f)
  match pre with
  | .error e => (some e, f)
  | .ok (arguments2, f1) =>
    let g := goParse { f1.strict with args := arguments2 }
    match g.1 with
    | some e => (some e, { f1 with strict := g.2 })
    | none =>
      let f2 : FlagSet := { f1 with strict := g.2 }
      let args := f2.strict.args
      if f2.isContinueOnUndefined then
        if f2.terminated then (none, f2) else f2.parseNonFlagLoop args 0
      else
        if f2.terminated then (none, f2)
        else if args.length = 0 then (none, f2)
        else
          let i := arguments2.length - args.length
          let i2 := if i > 0 then i - 1 else i
          if arguments2.getD i2 "" = "--" then (none, { f2 with terminated := true })
          else f2.parseNonFlagLoop args 0

/-- NFormalNonFlag (flag.go lines 100-109): one past the highest
declared non-flag index, zero when none is declared. -/
def FlagSet.NFormalNonFlag (f : FlagSet) : Nat :=
  f.nonFormal.foldl (fun m p => max m (p.1 + 1)) 0

/-- NextArgs (flag.go lines 90-97): the arguments of the next
subcommand, after the positional slots required by the definition. -/
def FlagSet.NextArgs (f : FlagSet) : List String :=
  let n := f.NFormalNonFlag
  let args := f.strict.args
  if n < args.length then args.drop n else []

/-- SplitArgs (global.go lines 12-19): splits off the leading
command-name token when it is nonempty and does not start with a
minus. -/
def SplitArgs (arguments : List String) : String × List String :=
  match arguments with
  | [] => ("", [])
  | s :: rest =>
    match s.data with
    | [] => ("", s :: rest)
    | c :: _ => if c = '-' then ("", s :: rest) else (s, rest)

/-! ## Command dispatch (app.go)

A struct-backed filter or action is embedded by the registration its
StructVars call produces (the named flags with their defaults, and the
positional slots); the reflection walk itself is outside the model.
Side-effect points of a dispatch are recorded in an event trace so the
theorems can state that a handler or a filter binding did or did not
run. -/

/-- Status code constants (app.go lines 136-142). -/
def StatusBadArgs : Int := 1

def StatusNotFound : Int := 2

def StatusParseFailed : Int := 3

def StatusValidateFailed : Int := 4

def StatusMismatchScope : Int := 5

/-- A dispatch status (the status.Status result of Exec): code and the
text of the underlying cause. -/
structure StatusM where
  code : Int
  cause : String
  deriving Repr, DecidableEq

/-- A filter registered on a command (app.go filterObject): either a
plain callback (filterFunc) or a struct-backed filter described by its
StructVars registration. -/
inductive FilterSpec where
  | fn
  | strct (flags : List (String × String)) (nons : List (Nat × SlotVal))
  deriving Repr, DecidableEq

/-- An action of a command (app.go actionObject): a plain callback
(actionFunc) or a struct-backed action. -/
inductive ActionSpec where
  | fn
  | strct (flags : List (String × String)) (nons : List (Nat × SlotVal))
  deriving Repr, DecidableEq

/-- Side-effect points of a dispatch: filter/action argument binding
(tagged with the command name and filter position) and handler
invocation (in chain order). -/
inductive Event where
  | filterBind (cmdName : String) (i : Nat)
  | actionBind (cmdName : String)
  | filterRun (i : Nat)
  | actionRun
  | notFoundRun
  deriving Repr, DecidableEq

/-- App-level configuration reaching the dispatch code: the optional
scope matcher (SetScopeMatcher), the optional validator (SetValidator,
embedded as a predicate on the bound flag state) and whether a notFound
action is configured (SetNotFound). -/
structure AppM where
  scopeMatcherFunc : Option (Int → Int → Option String)
  validator : Option (FlagSet → Option String)
  notFound : Bool

/-- The fresh FlagSet a struct-backed filter or action parses with:
NewFlagSet(name, ContinueOnError | ContinueOnUndefined) followed by
StructVars (app.go lines 407, 449, 622-624, 651-653). -/
def mkStructFlagSet (flags : List (String × String)) (nons : List (Nat × SlotVal)) :
    FlagSet :=
  { isContinueOnUndefined := true, terminated := false,
    strict := { formal := flags.map Prod.fst, store := flags, args := [] },
    nonFormal := nons, nonActual := [] }

/-- The result a filter contributes to the chain (app.go newFilters r):
the callback itself, or the freshly bound struct state. -/
inductive FilterRes where
  | fn
  | strct (f : FlagSet)
  deriving Repr, DecidableEq

/-- The resolved action (app.go newAction / findFiltersAndAction): the
callback, the freshly bound struct state, or the configured notFound
handler. -/
inductive ActionRes where
  | fn
  | strct (f : FlagSet)
  | notFound
  deriving Repr, DecidableEq

/-- Parsing and validation of one struct-backed filter or action
(app.go lines 622-630 and 651-659): parse errors throw
StatusParseFailed, validator errors throw StatusValidateFailed. -/
def bindStruct (app : AppM) (cmdName : String) (flags : List (String × String))
    (nons : List (Nat × SlotVal)) (arguments : List String) : Except StatusM FlagSet :=
  let p := (mkStructFlagSet flags nons).Parse arguments
  match p.1 with
  | some e => .error { code := StatusParseFailed, cause := e }
  | none =>
    match app.validator with
    | some v =>
      match v p.2 with
      | some e => .error { code := StatusValidateFailed, cause := e }
      | none => .ok p.2
    | none => .ok p.2

/-- The loop body of newFilters (app.go lines 615-639) over the
remaining filter list; i indexes the filters for the event trace, args
is the running shortest leftover tail.  Every struct-backed filter
parses the same incoming list arguments. -/
def newFiltersLoop (app : AppM) (cmdName : String) (specs : List FilterSpec)
    (i : Nat) (arguments args : List String) :
    List Event × Except StatusM (List FilterRes × List String) :=
  match specs with
  | [] => ([], .ok ([], args))
  | .fn :: rest =>
    ((newFiltersLoop app cmdName rest (i + 1) arguments args).1,
      (newFiltersLoop app cmdName rest (i + 1) arguments args).2.map
        (fun p => (.fn :: p.1, p.2)))
  | .strct flags nons :: rest =>
    match bindStruct app cmdName flags nons arguments with
    | .error st => ([.filterBind cmdName i], .error st)
    | .ok f =>
      (Event.filterBind cmdName i ::
          (newFiltersLoop app cmdName rest (i + 1) arguments
            (if args.length > f.NextArgs.length then f.NextArgs else args)).1,
        (newFiltersLoop app cmdName rest (i + 1) arguments
            (if args.length > f.NextArgs.length then f.NextArgs else args)).2.map
          (fun p => (.strct f :: p.1, p.2)))

/-- newFilters (app.go lines 615-639): returns the filter results and
the narrowed remaining arguments, plus the trace of filter bindings. -/
def newFilters (app : AppM) (cmdName : String) (specs : List FilterSpec)
    (arguments : List String) :
    List Event × Except StatusM (List FilterRes × List String) :=
  newFiltersLoop app cmdName specs 0 arguments arguments

/-- newAction (app.go lines 641-661): no action means not found with
the argument list unchanged; a callback action drops the leading
command-name token; a struct-backed action binds a fresh copy and
leaves its NextArgs. -/
def newAction (app : AppM) (cmdName : String) (action : Option ActionSpec)
    (cmdline : List String) :
    List Event × Except StatusM (Option ActionRes × List String × Bool) :=
  match action with
  | none => ([], .ok (none, cmdline, false))
  | some .fn => ([], .ok (some .fn, (SplitArgs cmdline).2, true))
  | some (.strct flags nons) =>
    match bindStruct app cmdName flags nons cmdline with
    | .error st => ([.actionBind cmdName], .error st)
    | .ok f => ([.actionBind cmdName], .ok (some (.strct f), f.NextArgs, true))

/-- Command (app.go lines 41-58, restricted to the fields dispatch
reads): name, scope, ordered filters, optional action, and named
subcommands. -/
inductive CmdM where
  | mk (cmdName : String) (scope : Int) (filters : List FilterSpec)
      (action : Option ActionSpec) (subs : List (String × CmdM))

def CmdM.cmdName : CmdM → String
  | .mk n _ _ _ _ => n

def CmdM.scope : CmdM → Int
  | .mk _ s _ _ _ => s

def CmdM.filters : CmdM → List FilterSpec
  | .mk _ _ fs _ _ => fs

def CmdM.action : CmdM → Option ActionSpec
  | .mk _ _ _ a _ => a

def CmdM.subs : CmdM → List (String × CmdM)
  | .mk _ _ _ _ s => s

/-- Subcommand lookup (Go: c.subcommands[subCmdName]). -/
def lookupSub (name : String) : List (String × CmdM) → Option CmdM
  | [] => none
  | (n, c) :: rest => if n = name then some c else lookupSub name rest

theorem lookupSub_sizeOf (name : String) (l : List (String × CmdM)) (c : CmdM)
    (h : lookupSub name l = some c) : sizeOf c < sizeOf l := by
  induction l with
  | nil => simp [lookupSub] at h
  | cons p rest ih =>
    obtain ⟨n, c0⟩ := p
    unfold lookupSub at h
    split at h
    · injection h with h2
      subst h2
      simp
      omega
    · have := ih h
      simp
      omega

/-- The result of findFiltersAndAction (its five return values). -/
structure FindRes where
  filters : List FilterRes
  action : ActionRes
  cmdPath : List String
  cmd : CmdM
  found : Bool

/-- findFiltersAndAction (app.go lines 582-613): scope gate, filter
binding, action resolution at this level, and recursion into the named
subcommand; throwing is modelled by the error side of Except, and the
trace collects the binding events that happened before the throw. -/
def CmdM.findFiltersAndAction (app : AppM) (c : CmdM) (cmdPath : List String)
    (arguments : List String) (execScope : Int) :
    List Event × Except StatusM FindRes :=
  let gateErr : Option StatusM :=
    match c.action, app.scopeMatcherFunc with
    | some _, some m =>
      match m c.scope execScope with
      | some e => some { code := StatusMismatchScope, cause := e }
      | none => none
    | _, _ => none
  match gateErr with
  | some st => ([], .error st)
  | none =>
    let nf := newFilters app c.cmdName c.filters arguments
    match nf.2 with
    | .error st => (nf.1, .error st)
    | .ok (filters, arguments1) =>
      let na := newAction app c.cmdName c.action arguments1
      match na.2 with
      | .error st => (nf.1 ++ na.1, .error st)
      | .ok (actOpt, arguments2, found) =>
        match actOpt with
        | some act =>
          (nf.1 ++ na.1,
            .ok { filters := filters, action := act, cmdPath := cmdPath, cmd := c,
                  found := true })
        | none =>
          let sp := SplitArgs arguments2
          let cmdPath2 := if sp.1 = "" then cmdPath else cmdPath ++ [sp.1]
          match hsub : lookupSub sp.1 c.subs with
          | none =>
            if app.notFound then
              (nf.1 ++ na.1,
                .ok { filters := [], action := .notFound, cmdPath := cmdPath2, cmd := c,
                      found := false })
            else
              (nf.1 ++ na.1,
                .error { code := StatusNotFound,
                         cause := "not found command action: "
                           ++ goQuote (String.intercalate " " cmdPath2) })
          | some sub =>
            let r := CmdM.findFiltersAndAction app sub cmdPath2 sp.2 execScope
            match r.2 with
            | .error st => (nf.1 ++ na.1 ++ r.1, .error st)
            | .ok res =>
              if res.found then
                (nf.1 ++ na.1 ++ r.1, .ok { res with filters := filters ++ res.filters })
              else
                (nf.1 ++ na.1 ++ r.1,
                  .ok { filters := [], action := res.action, cmdPath := res.cmdPath,
                        cmd := res.cmd, found := false })
termination_by sizeOf c
decreasing_by
  have h1 := lookupSub_sizeOf _ _ _ hsub
  cases c with
  | mk n s fs a subs => simp [CmdM.subs] at h1 ⊢; omega

/-- The handler-invocation part of route (app.go lines 569-578): when
an action was found the filters wrap it outermost-first, so filter 0
runs first and the action last; a not-found fallback runs bare. -/
def runChain (r : FindRes) : List Event :=
  let actionEvt : Event :=
    match r.action with
    | .notFound => .notFoundRun
    | _ => .actionRun
  if r.found then (List.range r.filters.length).map Event.filterRun ++ [actionEvt]
  else [actionEvt]

/-- Exec (app.go lines 554-563) composed with route: a thrown status is
caught and returned (status.Catch); on success the composed chain runs
and the status is nil (none). -/
def CmdM.Exec (app : AppM) (c : CmdM) (arguments : List String) (execScope : Int) :
    List Event × Option StatusM :=
  let f := c.findFiltersAndAction app [c.cmdName] arguments execScope
  match f.2 with
  | .error st => (f.1, some st)
  | .ok r => (f.1 ++ runChain r, none)

/-- Context (app.go lines 93-99): the per-dispatch view route builds on
line 579. -/
structure ContextM where
  args : List String
  cmdPath : List String
  cmd : CmdM
  execScope : Int

/-- The Context construction of route (app.go line 579): the execScope
parameter of Exec is stored in the execScope field, the resolved
command in cmd. -/
def routeContext (r : FindRes) (arguments : List String) (execScope : Int) : ContextM :=
  { args := arguments, cmdPath := r.cmdPath, cmd := r.cmd, execScope := execScope }

/-- Context.CmdScope (app.go lines 794-797): the scope of the resolved
command. -/
def ContextM.CmdScope (c : ContextM) : Int := c.cmd.scope

/-- Context.ExecScope (app.go lines 799-802): the accessor named for
the executor scope; the source body returns c.cmd.scope. -/
def ContextM.ExecScope (c : ContextM) : Int := c.cmd.scope

/-! ## Command construction (app.go SetAction / AddSubcommand)

The configuration state of one command that the two registration calls
inspect and mutate: whether an action is set and which subcommand names
exist.  A Go panic is the error side of Except. -/

/-- Per-command registration state. -/
structure CmdCfg where
  hasAction : Bool
  subNames : List String
  deriving Repr, DecidableEq

/-- The checks of SetAction (app.go lines 438-446): panics when
subcommands exist or when an action is already set. -/
def SetActionOp (path : String) (c : CmdCfg) : Except String CmdCfg :=
  if c.subNames ≠ [] then
    .error ("some subcommands have been set, no action can be set: " ++ goQuote path)
  else if c.hasAction then
    .error ("an action have been set: " ++ goQuote path)
  else .ok { c with hasAction := true }

/-- The checks of AddSubcommand (app.go lines 379-396): panics on an
empty name, when an action is already set, or when the name already
exists. -/
def AddSubcommandOp (cmdName : String) (c : CmdCfg) : Except String CmdCfg :=
  if cmdName = "" then .error "command name is empty"
  else if c.hasAction then
    .error ("action has been set, no subcommand can be set: " ++ goQuote cmdName)
  else if cmdName ∈ c.subNames then
    .error ("action named " ++ cmdName ++ " already exists")
  else .ok { c with subNames := c.subNames ++ [cmdName] }

/-- One registration call on a command. -/
inductive CfgOp where
  | setAction (path : String)
  | addSubcommand (cmdName : String)
  deriving Repr, DecidableEq

/-- Apply one registration call. -/
def applyCfgOp (c : CmdCfg) : CfgOp → Except String CmdCfg
  | .setAction path => SetActionOp path c
  | .addSubcommand n => AddSubcommandOp n c

/-- Run a sequence of registration calls from a state; the first panic
aborts. -/
def runCfgOps (c : CmdCfg) : List CfgOp → Except String CmdCfg
  | [] => .ok c
  | op :: rest =>
    match applyCfgOp c op with
    | .error e => .error e
    | .ok c2 => runCfgOps c2 rest

/-- The state of a freshly constructed command (newCommand, app.go
lines 204-212): no action, no subcommands. -/
def initCmdCfg : CmdCfg := { hasAction := false, subNames := [] }

/-! ## Claim theorems -/

/-- Simp set used to evaluate the tokenizer and parser on concrete or
semi-concrete inputs. -/
theorem strData_append (a b : String) : (a ++ b).data = a.data ++ b.data := rfl

/-- C2: tidyArgs on the input -run abc -- -c 2 yields the tidied head
-run abc and the residual tail -c 2 with the terminated marker set; a
second pass over -c 2 alone yields itself with an empty residual and no
terminator; and in general a leading "--" token is consumed, stops flag
scanning, and leaves everything after it as the residual. -/
theorem C2_tidyArgs_terminator :
    tidyArgs ["-run", "abc", "--", "-c", "2"] (fun _ => (true, true)) =
      (["-run", "abc"], ["-c", "2"], true, none) ∧
    tidyArgs ["-c", "2"] (fun _ => (true, true)) =
      (["-c", "2"], [], false, none) ∧
    ∀ (filter : String → Bool × Bool) (rest : List String),
      tidyArgs ("--" :: rest) filter = ([], rest, true, none) := by
  refine ⟨?_, ?_, ?_⟩
  · simp [tidyArgs, tidyArgsLoop, tidyOneArg, tidyOneCore, tidyOneName, splitAtFirstEq,
      String.data]
  · simp [tidyArgs, tidyArgsLoop, tidyOneArg, tidyOneCore, tidyOneName, splitAtFirstEq,
      String.data]
  · intro filter rest
    simp [tidyArgs, tidyArgsLoop, tidyOneArg, tidyOneCore, String.data]

/-- The FlagSet of the ContinueOnUndefined test (flag_test.go lines
13-26): one string flag x with default empty, in strict or tolerant
mode. -/
def fsX (tolerant : Bool) : FlagSet :=
  { isContinueOnUndefined := tolerant, terminated := false,
    strict := { formal := ["x"], store := [("x", "")], args := [] },
    nonFormal := [], nonActual := [] }

/-- C7 counterexample: the bare token - is not a hard tokenization
error.  tidyOneArg reports it as not seen with no error, and Parse of
the single token - returns no error in tolerant mode and in strict mode
alike, leaving it as a positional argument. -/
theorem C7_counterexample_bare_minus :
    (tidyOneArg ["-"]).err = none ∧ (tidyOneArg ["-"]).seen = false ∧
    ((fsX true).Parse ["-"]).1 = none ∧ ((fsX false).Parse ["-"]).1 = none := by
  refine ⟨by simp [tidyOneArg, tidyOneCore, String.data], by simp [tidyOneArg, tidyOneCore, String.data], ?_, ?_⟩
  · simp [fsX, FlagSet.Parse, tidyArgs, tidyArgsLoop, tidyOneArg, tidyOneCore, tidyOneName,
      FlagSet.hasFormal, goParse, goParseOne, goParseOneCore, goParseName, goParseApply,
      FlagSet.parseNonFlagLoop, FlagSet.parseOneNonFlag, lookupSlot, String.data]
  · simp [fsX, FlagSet.Parse, goParse, goParseOne, goParseOneCore, goParseName, goParseApply,
      FlagSet.parseNonFlagLoop, FlagSet.parseOneNonFlag, lookupSlot, String.data]

/-- C7 amended: a flag token whose name part is empty or begins with a
minus or an equals sign after stripping leading minuses, such as -=x,
is a hard parse error naming the token in both strict and tolerant
mode; the bare token - however is not a flag token at all: it ends flag
scanning as a non-flag argument without any error. -/
theorem C7_amended_malformed_token (rest : List String) :
    ((fsX true).Parse ("-=x" :: rest)).1 = some "bad flag syntax: -=x" ∧
    ((fsX false).Parse ("-=x" :: rest)).1 = some "bad flag syntax: -=x" ∧
    (tidyOneArg ["-"]).err = none ∧
    ((fsX true).Parse ["-"]).1 = none ∧ ((fsX false).Parse ["-"]).1 = none := by
  refine ⟨?_, ?_, by simp [tidyOneArg, tidyOneCore, String.data], ?_, ?_⟩
  · simp [fsX, FlagSet.Parse, tidyArgs, tidyArgsLoop, tidyOneArg, tidyOneCore, tidyOneName,
      String.data]
  · simp [fsX, FlagSet.Parse, goParse, goParseOne, goParseOneCore, goParseName, String.data]
  · simp [fsX, FlagSet.Parse, tidyArgs, tidyArgsLoop, tidyOneArg, tidyOneCore, tidyOneName,
      FlagSet.hasFormal, goParse, goParseOne, goParseOneCore, goParseName, goParseApply,
      FlagSet.parseNonFlagLoop, FlagSet.parseOneNonFlag, lookupSlot, String.data]
  · simp [fsX, FlagSet.Parse, goParse, goParseOne, goParseOneCore, goParseName, goParseApply,
      FlagSet.parseNonFlagLoop, FlagSet.parseOneNonFlag, lookupSlot, String.data]

theorem strMk_data (s : String) : String.mk s.data = s := rfl

/-- A FlagSet with the two string flags x and z, in strict or tolerant
mode. -/
def fsXZ (tolerant : Bool) : FlagSet :=
  { isContinueOnUndefined := tolerant, terminated := false,
    strict := { formal := ["x", "z"], store := [("x", ""), ("z", "")], args := [] },
    nonFormal := [], nonActual := [] }

/-- C1: with the ContinueOnUndefined bit, Parse over a list carrying
the undefined flag -y returns no error and still binds every registered
flag that appears in the list (x to the supplied value v, for every v,
and z in the two-flag variant); without the bit, Parse returns the
error naming the first unrecognized flag, -y. -/
theorem C1_tolerant_vs_strict_undefined (v : String) :
    (((fsX true).Parse ["-x=" ++ v, "-y"]).1 = none ∧
      lookupStore ((fsX true).Parse ["-x=" ++ v, "-y"]).2.strict.store "x" = some v) ∧
    ((fsX false).Parse ["-x=" ++ v, "-y"]).1 =
      some "flag provided but not defined: -y" ∧
    (((fsXZ true).Parse ["-x=" ++ v, "-y", "-z", "2"]).1 = none ∧
      lookupStore ((fsXZ true).Parse ["-x=" ++ v, "-y", "-z", "2"]).2.strict.store "x" =
        some v ∧
      lookupStore ((fsXZ true).Parse ["-x=" ++ v, "-y", "-z", "2"]).2.strict.store "z" =
        some "2") ∧
    ((fsXZ false).Parse ["-x=" ++ v, "-y", "-z", "2"]).1 =
      some "flag provided but not defined: -y" := by
  refine ⟨⟨?_, ?_⟩, ?_, ⟨?_, ?_, ?_⟩, ?_⟩ <;>
    simp [fsX, fsXZ, FlagSet.Parse, tidyArgs, tidyArgsLoop, tidyOneArg, tidyOneCore,
      tidyOneName, splitAtFirstEq, FlagSet.hasFormal, goParse, goParseOne, goParseOneCore,
      goParseName, goParseApply, setStore, lookupStore, FlagSet.parseNonFlagLoop,
      strData_append, strMk_data, String.data]

/-- A FlagSet with no named flags and string-valued non-flag slots
declared only at indices 0 and 3. -/
def fsSparse : FlagSet :=
  { isContinueOnUndefined := false, terminated := false,
    strict := { formal := [], store := [], args := [] },
    nonFormal := [(0, .str "d0"), (3, .str "d3")], nonActual := [] }

/-- C3 counterexample: with slots declared only at indices 0 and 3 and
four positional arguments supplied, Parse returns no error but the slot
at index 3 is NOT bound to the fourth argument: it keeps its default,
and only index 0 was bound (the walk stops at the first index with no
registered slot instead of skipping it). -/
theorem C3_counterexample_sparse_positional :
    (fsSparse.Parse ["a", "b", "c", "d"]).1 = none ∧
    lookupSlot (fsSparse.Parse ["a", "b", "c", "d"]).2.nonFormal 3 = some (.str "d3") ∧
    (fsSparse.Parse ["a", "b", "c", "d"]).2.nonActual = [0] := by
  refine ⟨?_, ?_, ?_⟩ <;>
    simp [fsSparse, FlagSet.Parse, goParse, goParseOne, goParseOneCore,
      FlagSet.parseNonFlagLoop, FlagSet.parseOneNonFlag, lookupSlot, setSlot, slotSet,
      stringValueSet, Except.map, String.data]

/-- Whether a slot carries the stringValue adapter. -/
def SlotVal.isStr : SlotVal → Bool
  | .str _ => true
  | .int _ => false

/-- The number of leading positional arguments the walk binds: the
longest prefix of args whose indices, starting at k, are all
registered. -/
def contiguousBound (dom : List (Nat × SlotVal)) (args : List String) (k : Nat) : Nat :=
  match args with
  | [] => 0
  | _ :: rest =>
    match lookupSlot dom k with
    | some _ => contiguousBound dom rest (k + 1) + 1
    | none => 0

theorem lookupSlot_setSlot (l : List (Nat × SlotVal)) (i : Nat) (v : SlotVal) (j : Nat)
    (hl : lookupSlot l i ≠ none) :
    lookupSlot (setSlot l i v) j = if i = j then some v else lookupSlot l j := by
  induction l with
  | nil => simp [lookupSlot] at hl
  | cons p rest ih =>
    obtain ⟨n, old⟩ := p
    by_cases hn : n = i
    · subst hn
      by_cases hj : n = j
      · simp [setSlot, lookupSlot, hj]
      · simp [setSlot, lookupSlot, hj]
    · have hl2 : lookupSlot rest i ≠ none := by
        simpa [lookupSlot, hn] using hl
      by_cases hj : n = j
      · subst hj
        have hij : ¬ i = n := fun he => hn he.symm
        simp [setSlot, lookupSlot, hn, hij]
      · simp [setSlot, lookupSlot, hn, hj, ih hl2]

theorem contiguousBound_congr (l l2 : List (Nat × SlotVal)) (args : List String) (k : Nat)
    (h : ∀ i, (lookupSlot l2 i).isSome = (lookupSlot l i).isSome) :
    contiguousBound l2 args k = contiguousBound l args k := by
  induction args generalizing k with
  | nil => simp [contiguousBound]
  | cons v rest ih =>
    unfold contiguousBound
    have hk := h k
    cases h1 : lookupSlot l k with
    | none =>
      have : lookupSlot l2 k = none := by
        cases h2 : lookupSlot l2 k
        · rfl
        · rw [h1, h2] at hk; simp at hk
      simp [this]
    | some w =>
      have : ∃ w2, lookupSlot l2 k = some w2 := by
        cases h2 : lookupSlot l2 k
        · rw [h1, h2] at hk; simp at hk
        · exact ⟨_, rfl⟩
      obtain ⟨w2, h2⟩ := this
      simp [h2, ih]

theorem parseOneNonFlag_absent (f : FlagSet) (k : Nat) (v : String)
    (hv : ¬ v = "--") (hk : lookupSlot f.nonFormal k = none) :
    f.parseOneNonFlag k v = (false, none, f) := by
  simp [FlagSet.parseOneNonFlag, hv, hk]

theorem parseOneNonFlag_str (f : FlagSet) (k : Nat) (v s : String)
    (hv : ¬ v = "--") (hk : lookupSlot f.nonFormal k = some (.str s)) :
    f.parseOneNonFlag k v =
      (true, none,
        { f with nonFormal := setSlot f.nonFormal k (.str v),
                 nonActual := f.nonActual ++ [k] }) := by
  simp [FlagSet.parseOneNonFlag, hv, hk, slotSet, stringValueSet, Except.map]

theorem parseNonFlagLoop_absent (f : FlagSet) (k : Nat) (v : String) (rest : List String)
    (hv : ¬ v = "--") (hk : lookupSlot f.nonFormal k = none) :
    f.parseNonFlagLoop (v :: rest) k = (none, f) := by
  conv_lhs => rw [FlagSet.parseNonFlagLoop]
  rw [parseOneNonFlag_absent f k v hv hk]
  rfl

theorem parseNonFlagLoop_str (f : FlagSet) (k : Nat) (v s : String) (rest : List String)
    (hv : ¬ v = "--") (hk : lookupSlot f.nonFormal k = some (.str s)) :
    f.parseNonFlagLoop (v :: rest) k =
      FlagSet.parseNonFlagLoop
        { f with nonFormal := setSlot f.nonFormal k (.str v),
                 nonActual := f.nonActual ++ [k] } rest (k + 1) := by
  conv_lhs => rw [FlagSet.parseNonFlagLoop]
  rw [parseOneNonFlag_str f k v s hv hk]
  rfl

theorem lookupSlot_mem (l : List (Nat × SlotVal)) (k : Nat) (w : SlotVal)
    (h : lookupSlot l k = some w) : (k, w) ∈ l := by
  induction l with
  | nil => simp [lookupSlot] at h
  | cons p rest ih =>
    obtain ⟨n, w2⟩ := p
    unfold lookupSlot at h
    by_cases hn : n = k
    · subst hn
      simp only [if_pos rfl] at h
      injection h with h
      subst h
      simp
    · simp only [hn, if_false] at h
      simp [ih h]

theorem setSlot_str_keeps (l : List (Nat × SlotVal)) (k : Nat) (v : String) :
    (∀ p ∈ l, p.2.isStr = true) →
    ∀ p ∈ setSlot l k (.str v), p.2.isStr = true := by
  induction l with
  | nil =>
    intro _ p hp
    simp [setSlot] at hp
    simp [hp, SlotVal.isStr]
  | cons q rest ih =>
    intro hstr p hp
    obtain ⟨n, w⟩ := q
    unfold setSlot at hp
    by_cases hn : n = k
    · rw [if_pos hn] at hp
      rcases List.mem_cons.1 hp with hp | hp
      · simp [hp, SlotVal.isStr]
      · exact hstr _ (List.mem_cons_of_mem _ hp)
    · rw [if_neg hn] at hp
      rcases List.mem_cons.1 hp with hp | hp
      · exact hstr _ (by simp [hp])
      · exact ih (fun p2 hp2 => hstr _ (List.mem_cons_of_mem _ hp2)) p hp

/-- C3 amended: walking the remaining positional arguments in index
order binds exactly the longest contiguous run of registered indices
starting at the current position, without error; the first position
with no registered slot stops the walk, so that position and every
later one (registered or not) receive nothing and keep their stored
defaults. -/
theorem C3_amended_positional_walk (f : FlagSet) (args : List String) (k : Nat)
    (hstr : ∀ p ∈ f.nonFormal, p.2.isStr = true)
    (hdd : "--" ∉ args) :
    (f.parseNonFlagLoop args k).1 = none ∧
    (f.parseNonFlagLoop args k).2.nonActual =
      f.nonActual ++ List.range' k (contiguousBound f.nonFormal args k) ∧
    (∀ j < contiguousBound f.nonFormal args k,
      lookupSlot (f.parseNonFlagLoop args k).2.nonFormal (k + j) =
        some (.str (args.getD j ""))) ∧
    (∀ i, i ∉ List.range' k (contiguousBound f.nonFormal args k) →
      lookupSlot (f.parseNonFlagLoop args k).2.nonFormal i = lookupSlot f.nonFormal i) := by
  induction args generalizing f k with
  | nil =>
    simp [FlagSet.parseNonFlagLoop, contiguousBound]
  | cons v rest ih =>
    have hv : ¬ v = "--" := fun he => hdd (by simp [he])
    have hdd2 : "--" ∉ rest := fun he => hdd (by simp [he])
    cases hk : lookupSlot f.nonFormal k with
    | none =>
      rw [parseNonFlagLoop_absent f k v rest hv hk]
      simp [contiguousBound, hk, List.range']
    | some slot =>
      have hslot : ∃ s, slot = SlotVal.str s := by
        have hmem := lookupSlot_mem _ _ _ hk
        have := hstr _ hmem
        cases slot with
        | str s => exact ⟨s, rfl⟩
        | int n => simp [SlotVal.isStr] at this
      obtain ⟨s, rfl⟩ := hslot
      rw [parseNonFlagLoop_str f k v s rest hv hk]
      have hcbeq : contiguousBound f.nonFormal (v :: rest) k =
          contiguousBound f.nonFormal rest (k + 1) + 1 := by
        simp only [contiguousBound, hk]
      have hlk : lookupSlot f.nonFormal k ≠ none := by simp [hk]
      have hset : ∀ j, lookupSlot (setSlot f.nonFormal k (.str v)) j =
          if k = j then some (.str v) else lookupSlot f.nonFormal j :=
        fun j => lookupSlot_setSlot f.nonFormal k (.str v) j hlk
      have hcong : ∀ i, (lookupSlot (setSlot f.nonFormal k (.str v)) i).isSome =
          (lookupSlot f.nonFormal i).isSome := by
        intro i
        rw [hset i]
        by_cases hik : k = i
        · subst hik
          simp [hk]
        · simp [hik]
      have hstr2 := setSlot_str_keeps f.nonFormal k v hstr
      have hcb : contiguousBound (setSlot f.nonFormal k (.str v)) rest (k + 1) =
          contiguousBound f.nonFormal rest (k + 1) :=
        contiguousBound_congr _ _ _ _ hcong
      have hIH :
          ((FlagSet.parseNonFlagLoop
              { f with nonFormal := setSlot f.nonFormal k (.str v),
                       nonActual := f.nonActual ++ [k] } rest (k + 1)).1 = none) ∧
          ((FlagSet.parseNonFlagLoop
              { f with nonFormal := setSlot f.nonFormal k (.str v),
                       nonActual := f.nonActual ++ [k] } rest (k + 1)).2.nonActual =
            (f.nonActual ++ [k]) ++
              List.range' (k + 1)
                (contiguousBound (setSlot f.nonFormal k (.str v)) rest (k + 1))) ∧
          (∀ j < contiguousBound (setSlot f.nonFormal k (.str v)) rest (k + 1),
            lookupSlot
              (FlagSet.parseNonFlagLoop
                { f with nonFormal := setSlot f.nonFormal k (.str v),
                         nonActual := f.nonActual ++ [k] } rest (k + 1)).2.nonFormal
              (k + 1 + j) = some (.str (rest.getD j ""))) ∧
          (∀ i, i ∉ List.range' (k + 1)
                (contiguousBound (setSlot f.nonFormal k (.str v)) rest (k + 1)) →
            lookupSlot
              (FlagSet.parseNonFlagLoop
                { f with nonFormal := setSlot f.nonFormal k (.str v),
                         nonActual := f.nonActual ++ [k] } rest (k + 1)).2.nonFormal i =
              lookupSlot (setSlot f.nonFormal k (.str v)) i) :=
        ih { f with nonFormal := setSlot f.nonFormal k (.str v),
                    nonActual := f.nonActual ++ [k] } (k + 1) hstr2 hdd2
      have hrange : List.range' k (contiguousBound f.nonFormal rest (k + 1) + 1) =
          k :: List.range' (k + 1) (contiguousBound f.nonFormal rest (k + 1)) := rfl
      refine ⟨hIH.1, ?_, ?_, ?_⟩
      · rw [hIH.2.1, hcb, hcbeq, hrange]
        simp
      · intro j hj
        rw [hcbeq] at hj
        cases j with
        | zero =>
          have hnotin : k ∉ List.range' (k + 1)
              (contiguousBound (setSlot f.nonFormal k (.str v)) rest (k + 1)) := by
            intro hmem
            have := List.mem_range'_1.1 hmem
            omega
          have h0 := hIH.2.2.2 k hnotin
          simp only [Nat.add_zero]
          rw [h0, hset k]
          simp
        | succ j2 =>
          have hj2 : j2 < contiguousBound (setSlot f.nonFormal k (.str v)) rest (k + 1) := by
            rw [hcb]
            omega
          have h1 := hIH.2.2.1 j2 hj2
          have harith : k + (j2 + 1) = k + 1 + j2 := by omega
          rw [harith]
          simpa using h1
      · intro i hi
        rw [hcbeq, hrange] at hi
        have hik : ¬ k = i := fun he => hi (by simp [he])
        have hnotin : i ∉ List.range' (k + 1)
            (contiguousBound (setSlot f.nonFormal k (.str v)) rest (k + 1)) := by
          rw [hcb]
          exact fun hmem => hi (by simp [hmem])
        rw [hIH.2.2.2 i hnotin, hset i]
        simp [hik]


/-- C8: Set with the empty string succeeds for every value adapter and
applies the type-specific default: zero for the numeric adapters (int,
int64, uint, uint64, float64), the zero duration for the duration
adapter, the empty string for the string adapter, and true for the
boolean adapter. -/
theorem C8_empty_set_defaults :
    stringValueSet "" = .ok "" ∧
    boolValueSet "" = .ok true ∧
    intValueSet "int" "" = .ok 0 ∧
    intValueSet "int64" "" = .ok 0 ∧
    uintValueSet "uint" "" = .ok 0 ∧
    uintValueSet "uint64" "" = .ok 0 ∧
    float64ValueSet "" = .ok 0 ∧
    durationValueSet "" = .ok 0 :=
  ⟨rfl, rfl, rfl, rfl, rfl, rfl, rfl, rfl⟩

/-- C10: the ExecScope accessor of a Context returns the scope of the
resolved command, identical to CmdScope, and not the execution scope
passed to Exec, even though route stores that execution scope in the
separate execScope field of the Context it builds. -/
theorem C10_ExecScope_returns_cmd_scope :
    (∀ ctx : ContextM, ctx.ExecScope = ctx.CmdScope) ∧
    (∀ (r : FindRes) (args : List String) (s : Int),
      (routeContext r args s).execScope = s ∧
      (routeContext r args s).ExecScope = r.cmd.scope) :=
  ⟨fun _ => rfl, fun _ _ _ => ⟨rfl, rfl⟩⟩

theorem applyCfgOp_inv (c c2 : CmdCfg) (op : CfgOp)
    (h : applyCfgOp c op = .ok c2) :
    ¬(c2.hasAction = true ∧ c2.subNames ≠ []) := by
  cases op with
  | setAction path =>
    unfold applyCfgOp SetActionOp at h
    by_cases h1 : c.subNames ≠ []
    · simp [h1] at h
    · simp only [h1, if_false] at h
      by_cases h2 : c.hasAction
      · simp [h2] at h
      · simp only [h2, if_false] at h
        injection h with h
        subst h
        simp at h1
        simp [h1]
  | addSubcommand n =>
    unfold applyCfgOp AddSubcommandOp at h
    by_cases h1 : n = ""
    · simp [h1] at h
    · simp only [h1, if_false] at h
      by_cases h2 : c.hasAction
      · simp [h2] at h
      · simp only [h2, if_false] at h
        by_cases h3 : n ∈ c.subNames
        · simp [h3] at h
        · simp only [h3, if_false] at h
          injection h with h
          subst h
          simp [h2]

theorem runCfgOps_inv (ops : List CfgOp) (c0 c : CmdCfg)
    (hc0 : ¬(c0.hasAction = true ∧ c0.subNames ≠ []))
    (h : runCfgOps c0 ops = .ok c) :
    ¬(c.hasAction = true ∧ c.subNames ≠ []) := by
  induction ops generalizing c0 with
  | nil =>
    unfold runCfgOps at h
    injection h with h
    subst h
    exact hc0
  | cons op rest ih =>
    unfold runCfgOps at h
    cases hop : applyCfgOp c0 op with
    | error e => rw [hop] at h; exact absurd h (by simp)
    | ok c2 =>
      rw [hop] at h
      exact ih c2 (applyCfgOp_inv c0 c2 op hop) h

/-- C9: after any sequence of SetAction and AddSubcommand calls that do
not panic, a command never has both an action and subcommands; SetAction
panics when subcommands or an action already exist, and AddSubcommand
panics when an action or a same-named subcommand already exists, so a
second registration never silently overwrites a first. -/
theorem C9_action_subcommand_exclusive (ops : List CfgOp) (c : CmdCfg)
    (h : runCfgOps initCmdCfg ops = .ok c) :
    ¬(c.hasAction = true ∧ c.subNames ≠ []) ∧
    (∀ (path : String) (d : CmdCfg), d.subNames ≠ [] →
      SetActionOp path d =
        .error ("some subcommands have been set, no action can be set: " ++ goQuote path)) ∧
    (∀ (path : String) (d : CmdCfg), d.subNames = [] → d.hasAction = true →
      SetActionOp path d = .error ("an action have been set: " ++ goQuote path)) ∧
    (∀ (n : String) (d : CmdCfg), n ≠ "" → d.hasAction = true →
      AddSubcommandOp n d =
        .error ("action has been set, no subcommand can be set: " ++ goQuote n)) ∧
    (∀ (n : String) (d : CmdCfg), n ≠ "" → d.hasAction = false → n ∈ d.subNames →
      AddSubcommandOp n d = .error ("action named " ++ n ++ " already exists")) := by
  refine ⟨runCfgOps_inv ops initCmdCfg c (by decide) h, ?_, ?_, ?_, ?_⟩
  · intro path d h1
    simp [SetActionOp, h1]
  · intro path d h1 h2
    simp [SetActionOp, h1, h2]
  · intro n d h1 h2
    simp [AddSubcommandOp, h1, h2]
  · intro n d h1 h2 h3
    simp [AddSubcommandOp, h1, h2, h3]

/-- The leftover tail one struct-backed filter would produce when
parsing the incoming argument list on its own: its NextArgs after a
successful bind; none for a plain callback filter. -/
def filterLeftover (app : AppM) (cmdName : String) (arguments : List String) :
    FilterSpec → Option (List String)
  | .fn => none
  | .strct flags nons =>
    match bindStruct app cmdName flags nons arguments with
    | .ok f => some f.NextArgs
    | .error _ => none

/-- The chain entry one filter contributes, computed from the incoming
argument list alone (independently of any sibling filter). -/
def filterIndependentRes (app : AppM) (cmdName : String) (arguments : List String) :
    FilterSpec → Option FilterRes
  | .fn => some .fn
  | .strct flags nons =>
    match bindStruct app cmdName flags nons arguments with
    | .ok f => some (.strct f)
    | .error _ => none

/-- All-or-nothing map: some list of results when f succeeds on every
element, none otherwise. -/
def mapOptAll (f : FilterSpec → Option FilterRes) : List FilterSpec → Option (List FilterRes)
  | [] => some []
  | a :: l =>
    match f a with
    | none => none
    | some b =>
      match mapOptAll f l with
      | none => none
      | some bs => some (b :: bs)

theorem newFiltersLoop_spec (app : AppM) (cmdName : String) (arguments : List String)
    (specs : List FilterSpec) (i : Nat) (args : List String)
    (evs : List Event) (rs : List FilterRes) (out : List String)
    (h : newFiltersLoop app cmdName specs i arguments args = (evs, .ok (rs, out))) :
    mapOptAll (filterIndependentRes app cmdName arguments) specs = some rs ∧
    (out = args ∨ out ∈ specs.filterMap (filterLeftover app cmdName arguments)) ∧
    out.length ≤ args.length ∧
    (∀ t ∈ specs.filterMap (filterLeftover app cmdName arguments), out.length ≤ t.length) := by
  induction specs generalizing i args evs rs out with
  | nil =>
    unfold newFiltersLoop at h
    injection h with h1 h2
    injection h2 with h3
    injection h3 with h4 h5
    subst h4 h5
    exact ⟨rfl, Or.inl rfl, Nat.le.refl, by simp⟩
  | cons sp rest ih =>
    cases sp with
    | fn =>
      unfold newFiltersLoop at h
      rcases ht : newFiltersLoop app cmdName rest (i + 1) arguments args with ⟨evs2, res2⟩
      rw [ht] at h
      cases res2 with
      | error st => simp [Except.map] at h
      | ok p =>
        obtain ⟨rs2, out2⟩ := p
        simp only [Except.map, Prod.mk.injEq, Except.ok.injEq] at h
        obtain ⟨hevs, hrs, hout⟩ := h
        subst hout
        obtain ⟨hIH1, hIH2, hIH3, hIH4⟩ := ih (i + 1) args evs2 rs2 out2 ht
        refine ⟨?_, ?_, hIH3, ?_⟩
        · rw [← hrs]
          simp [mapOptAll, filterIndependentRes, hIH1]
        · simpa [List.filterMap_cons, filterLeftover] using hIH2
        · intro t htm
          apply hIH4
          simpa [List.filterMap_cons, filterLeftover] using htm
    | strct flags nons =>
      unfold newFiltersLoop at h
      cases hb : bindStruct app cmdName flags nons arguments with
      | error st =>
        rw [hb] at h
        simp at h
      | ok f =>
        rw [hb] at h
        dsimp only [] at h
        rcases ht : newFiltersLoop app cmdName rest (i + 1) arguments
            (if args.length > f.NextArgs.length then f.NextArgs else args) with ⟨evs2, res2⟩
        rw [ht] at h
        cases res2 with
        | error st => simp [Except.map] at h
        | ok p =>
          obtain ⟨rs2, out2⟩ := p
          simp only [Except.map, Prod.mk.injEq, Except.ok.injEq] at h
          obtain ⟨hevs, hrs, hout⟩ := h
          subst hout
          obtain ⟨hIH1, hIH2, hIH3, hIH4⟩ := ih (i + 1) _ evs2 rs2 out2 ht
          refine ⟨?_, ?_, ?_, ?_⟩
          · rw [← hrs]
            simp [mapOptAll, filterIndependentRes, hb, hIH1]
          · simp only [List.filterMap_cons, filterLeftover, hb]
            by_cases hlen : args.length > f.NextArgs.length
            · rw [if_pos hlen] at hIH2
              rcases hIH2 with h1 | h1
              · right; simp [h1]
              · right; simp [h1]
            · rw [if_neg hlen] at hIH2
              rcases hIH2 with h1 | h1
              · left; exact h1
              · right; simp [h1]
          · by_cases hlen : args.length > f.NextArgs.length
            · rw [if_pos hlen] at hIH3
              omega
            · rw [if_neg hlen] at hIH3
              omega
          · intro t htm
            simp only [List.filterMap_cons, filterLeftover, hb] at htm
            rcases List.mem_cons.1 htm with h1 | h1
            · subst h1
              by_cases hlen : args.length > f.NextArgs.length
              · rw [if_pos hlen] at hIH3
                exact hIH3
              · rw [if_neg hlen] at hIH3
                omega
            · exact hIH4 t h1

/-- C4: when newFilters succeeds, every struct-backed filter was bound
by parsing the same incoming argument list with its own fresh FlagSet
(independently of its siblings), the returned remaining-argument list
is one of the candidates (the incoming list itself, or some filter's
NextArgs leftover) and is shortest among all of them, and when a level
has only plain callback filters the remaining arguments are unchanged. -/
theorem C4_newFilters_shortest_tail (app : AppM) (cmdName : String)
    (specs : List FilterSpec) (arguments : List String)
    (evs : List Event) (rs : List FilterRes) (out : List String)
    (h : newFilters app cmdName specs arguments = (evs, .ok (rs, out))) :
    mapOptAll (filterIndependentRes app cmdName arguments) specs = some rs ∧
    out ∈ arguments :: specs.filterMap (filterLeftover app cmdName arguments) ∧
    (∀ t ∈ arguments :: specs.filterMap (filterLeftover app cmdName arguments),
      out.length ≤ t.length) ∧
    ((∀ sp ∈ specs, sp = .fn) → out = arguments) := by
  obtain ⟨h1, h2, h3, h4⟩ :=
    newFiltersLoop_spec app cmdName arguments specs 0 arguments evs rs out h
  have hfm : ∀ l : List FilterSpec, (∀ sp ∈ l, sp = FilterSpec.fn) →
      l.filterMap (filterLeftover app cmdName arguments) = [] := by
    intro l
    induction l with
    | nil => intro _; simp
    | cons sp rest2 ih2 =>
      intro hl
      have h5 := hl sp (by simp)
      subst h5
      rw [List.filterMap_cons]
      have h6 := ih2 (fun sp2 hsp2 => hl sp2 (by simp [hsp2]))
      simp only [filterLeftover]
      exact h6
  refine ⟨h1, ?_, ?_, ?_⟩
  · rcases h2 with h2 | h2
    · simp [h2]
    · simp [h2]
  · intro t htm
    rcases List.mem_cons.1 htm with h5 | h5
    · subst h5
      exact h3
    · exact h4 t h5
  · intro hall
    rcases h2 with h2 | h2
    · exact h2
    · rw [hfm specs hall] at h2
      simp at h2

theorem findFA_gate (app : AppM) (c : CmdM) (cmdPath arguments : List String)
    (execScope : Int) (m : Int → Int → Option String) (e : String) (a : ActionSpec)
    (hact : c.action = some a)
    (hm : app.scopeMatcherFunc = some m)
    (hme : m c.scope execScope = some e) :
    c.findFiltersAndAction app cmdPath arguments execScope =
      ([], .error { code := StatusMismatchScope, cause := e }) := by
  conv_lhs => rw [CmdM.findFiltersAndAction]
  rw [hact, hm]
  simp only [hme]

theorem newFiltersLoop_allFn (app : AppM) (cmdName : String) (specs : List FilterSpec)
    (i : Nat) (arguments args : List String) (hall : ∀ sp ∈ specs, sp = FilterSpec.fn) :
    newFiltersLoop app cmdName specs i arguments args =
      ([], .ok (specs.map (fun _ => FilterRes.fn), args)) := by
  induction specs generalizing i with
  | nil => rfl
  | cons sp rest ih =>
    have h1 := hall sp (by simp)
    subst h1
    unfold newFiltersLoop
    rw [ih (i + 1) (fun sp2 hsp2 => hall sp2 (by simp [hsp2]))]
    rfl

theorem findFA_parent_gate (app : AppM) (c : CmdM) (cmdPath : List String)
    (execScope : Int) (m : Int → Int → Option String) (e : String) (a : ActionSpec)
    (pname : String) (pscope : Int) (pfs : List FilterSpec) (cname : String)
    (rest : List String)
    (hact : c.action = some a)
    (hm : app.scopeMatcherFunc = some m)
    (hme : m c.scope execScope = some e)
    (hall : ∀ sp ∈ pfs, sp = FilterSpec.fn)
    (hsp : SplitArgs (cname :: rest) = (cname, rest)) :
    (CmdM.mk pname pscope pfs none [(cname, c)]).findFiltersAndAction app cmdPath
        (cname :: rest) execScope =
      ([], .error { code := StatusMismatchScope, cause := e }) := by
  conv_lhs => rw [CmdM.findFiltersAndAction]
  simp only [CmdM.action, CmdM.scope, CmdM.cmdName, CmdM.filters, CmdM.subs]
  rw [show (newFilters app pname pfs (cname :: rest)) =
      ([], .ok (pfs.map (fun _ => FilterRes.fn), cname :: rest)) from
    newFiltersLoop_allFn app pname pfs 0 (cname :: rest) (cname :: rest) hall]
  simp only [newAction]
  split
  · rename_i hsub
    rw [hsp] at hsub
    simp [lookupSub] at hsub
  · rename_i sub hsub
    rw [hsp] at hsub
    simp [lookupSub] at hsub
    subst hsub
    rw [findFA_gate app c _ _ execScope m e a hact hm hme]
    simp

/-- C5: if a scope matcher is configured and dispatch reaches a command
with an action whose scope it reports incompatible with the execution
scope, Exec returns the distinct scope-mismatch status (code
StatusMismatchScope = 5) and nothing belonging to that command is
invoked: no filter binds or runs and the action never runs (the event
trace is empty) - both when Exec runs on that command directly and when
dispatch reaches it as a subcommand through a parent level. -/
theorem C5_scope_mismatch_aborts (app : AppM) (c : CmdM) (args : List String)
    (execScope : Int) (m : Int → Int → Option String) (e : String) (a : ActionSpec)
    (hact : c.action = some a)
    (hm : app.scopeMatcherFunc = some m)
    (hme : m c.scope execScope = some e) :
    c.Exec app args execScope = ([], some { code := StatusMismatchScope, cause := e }) ∧
    (∀ (pname : String) (pscope : Int) (pfs : List FilterSpec) (cname : String)
        (rest : List String),
      (∀ sp ∈ pfs, sp = FilterSpec.fn) →
      SplitArgs (cname :: rest) = (cname, rest) →
      (CmdM.mk pname pscope pfs none [(cname, c)]).Exec app (cname :: rest) execScope =
        ([], some { code := StatusMismatchScope, cause := e })) := by
  constructor
  · unfold CmdM.Exec
    rw [findFA_gate app c [c.cmdName] args execScope m e a hact hm hme]
  · intro pname pscope pfs cname rest hall hsp
    unfold CmdM.Exec
    rw [findFA_parent_gate app c _ execScope m e a pname pscope pfs cname rest
      hact hm hme hall hsp]

/-- An app configured with an equality scope matcher and nothing else. -/
def appScoped : AppM :=
  { scopeMatcherFunc :=
      some (fun cmdScope execScope =>
        if cmdScope = execScope then none else some "scope mismatch"),
    validator := none, notFound := false }

/-- A leaf command at scope 1 with one struct-backed filter and a
callback action. -/
def cmdScoped : CmdM := .mk "serve" 1 [.strct [("a", "")] []] (some .fn) []

/-- Witness for C5 at a concrete command, matcher and input. -/
theorem C5_scope_mismatch_aborts_witness :
    cmdScoped.action = some ActionSpec.fn ∧
    cmdScoped.Exec appScoped ["-a", "1"] 0 =
      ([], some { code := StatusMismatchScope, cause := "scope mismatch" }) :=
  ⟨rfl,
    (C5_scope_mismatch_aborts appScoped cmdScoped ["-a", "1"] 0
      (fun cmdScope execScope =>
        if cmdScope = execScope then none else some "scope mismatch")
      "scope mismatch" .fn rfl rfl (by decide)).1⟩

/-- An app with no scope matcher, validator or notFound handler. -/
def appPlain : AppM := { scopeMatcherFunc := none, validator := none, notFound := false }

/-- Witness for C4 at a concrete filter list and argument list. -/
theorem C4_newFilters_shortest_tail_witness :
    newFilters appPlain "c" [FilterSpec.fn, .strct [] [(0, .str "d")]] ["p0", "p1"] =
      ([Event.filterBind "c" 1],
        .ok ([FilterRes.fn,
          FilterRes.strct
            { isContinueOnUndefined := true, terminated := false,
              strict := { formal := [], store := [], args := ["p0", "p1"] },
              nonFormal := [(0, .str "p0")], nonActual := [0] }], ["p1"])) ∧
    ["p1"] ∈ ["p0", "p1"] ::
      List.filterMap (filterLeftover appPlain "c" ["p0", "p1"])
        [FilterSpec.fn, .strct [] [(0, .str "d")]] := by
  have h : newFilters appPlain "c" [FilterSpec.fn, .strct [] [(0, .str "d")]] ["p0", "p1"] =
      ([Event.filterBind "c" 1],
        .ok ([FilterRes.fn,
          FilterRes.strct
            { isContinueOnUndefined := true, terminated := false,
              strict := { formal := [], store := [], args := ["p0", "p1"] },
              nonFormal := [(0, .str "p0")], nonActual := [0] }], ["p1"])) := by
    simp [newFilters, newFiltersLoop, bindStruct, mkStructFlagSet, appPlain,
      FlagSet.Parse, tidyArgs, tidyArgsLoop, tidyOneArg, tidyOneCore, tidyOneName,
      FlagSet.hasFormal, goParse, goParseOne, goParseOneCore, goParseName, goParseApply,
      FlagSet.parseNonFlagLoop, FlagSet.parseOneNonFlag, lookupSlot, setSlot, slotSet,
      stringValueSet, Except.map, FlagSet.NextArgs, FlagSet.NFormalNonFlag, String.data]
  exact ⟨h,
    (C4_newFilters_shortest_tail appPlain "c" [FilterSpec.fn, .strct [] [(0, .str "d")]]
      ["p0", "p1"] _ _ _ h).2.1⟩

/-- Witness for the amended C3 at the sparse-slot FlagSet and four
positional arguments. -/
theorem C3_amended_positional_walk_witness :
    (∀ p ∈ fsSparse.nonFormal, p.2.isStr = true) ∧
    "--" ∉ ["a", "b", "c", "d"] ∧
    (fsSparse.parseNonFlagLoop ["a", "b", "c", "d"] 0).1 = none ∧
    (fsSparse.parseNonFlagLoop ["a", "b", "c", "d"] 0).2.nonActual =
      fsSparse.nonActual ++
        List.range' 0 (contiguousBound fsSparse.nonFormal ["a", "b", "c", "d"] 0) :=
  ⟨by decide, by decide,
    (C3_amended_positional_walk fsSparse ["a", "b", "c", "d"] 0 (by decide) (by decide)).1,
    (C3_amended_positional_walk fsSparse ["a", "b", "c", "d"] 0 (by decide) (by decide)).2.1⟩

/-- Witness for C9 at a concrete two-subcommand registration
sequence. -/
theorem C9_action_subcommand_exclusive_witness :
    runCfgOps initCmdCfg [.addSubcommand "a", .addSubcommand "b"] =
      .ok { hasAction := false, subNames := ["a", "b"] } ∧
    ¬(({ hasAction := false, subNames := ["a", "b"] } : CmdCfg).hasAction = true ∧
      ({ hasAction := false, subNames := ["a", "b"] } : CmdCfg).subNames ≠ []) :=
  ⟨rfl,
    (C9_action_subcommand_exclusive [.addSubcommand "a", .addSubcommand "b"]
      { hasAction := false, subNames := ["a", "b"] } rfl).1⟩

end Flagx
